import Mathlib

/-
  Verification development for the attribute-pattern detection core
  (toolkit/attribute_patterns/model.py) of the intelligence-toolkit
  repository.

  The embedding models dataframes as lists of rows, numeric cells as exact
  rationals, and the IEEE-special values produced by numpy division
  (NaN, +inf, -inf) via an explicit FVal type.  Sorting follows pandas
  nargsort semantics for sort_values(ascending=False): the non-NaN values
  are reversed, arg-sorted ascending, the indexer is reversed again, and
  NaN positions are appended at the end (na_position="last").  The
  underlying numpy argsort (default kind="quicksort", whose tie order is
  not documented) is modelled by a concrete comparison sort; every
  property proved below about a sorted table — membership, per-row
  values, descending order — is invariant under the tie order, so none
  depends on that modelling choice.
-/

namespace IntelToolkit

open List

/-- Scalar values of a float-valued pandas column: finite rationals plus the
IEEE special values produced by division (NaN, +infinity, -infinity). -/
inductive FVal where
  | ninf : FVal
  | fin : ℚ → FVal
  | inf : FVal
  | nan : FVal
deriving DecidableEq, Repr, Inhabited

/-- NaN test on FVal. -/
def FVal.isNanB : FVal → Bool
  | .nan => true
  | _ => false

/-- Rank used to order the non-finite values: -inf below all finite values,
+inf above, NaN treated as a top element (it is filtered out before sorting,
matching pandas, so its rank never matters). -/
def FVal.rank : FVal → ℕ
  | .ninf => 0
  | .fin _ => 1
  | .inf => 2
  | .nan => 3

/-- Boolean total preorder on FVal used by the sort model. -/
def fleB : FVal → FVal → Bool
  | .fin a, .fin b => decide (a ≤ b)
  | x, y => decide (x.rank ≤ y.rank)

/-- numpy division semantics on exact rationals: q / 0 is NaN when q = 0 and
a signed infinity otherwise; any other division is exact. -/
def fdiv (q m : ℚ) : FVal :=
  if m = 0 then (if q = 0 then .nan else if 0 < q then .inf else .ninf)
  else .fin (q / m)

/-- Round a rational to the nearest integer, halves to even
(the rounding used by numpy / pandas round). -/
def roundHalfEven (q : ℚ) : ℤ :=
  if q - (⌊q⌋ : ℚ) < 1/2 then ⌊q⌋
  else if (1 : ℚ)/2 < q - (⌊q⌋ : ℚ) then ⌊q⌋ + 1
  else if Even ⌊q⌋ then ⌊q⌋ else ⌊q⌋ + 1

/-- Round to two decimal places, halves to even (Series.round(2)). -/
def round2 (q : ℚ) : ℚ := (roundHalfEven (q * 100) : ℚ) / 100

/-- Series.round(2) on an FVal cell: NaN and infinities pass through. -/
def round2F : FVal → FVal
  | .fin q => .fin (round2 q)
  | x => x

theorem fleB_total (a b : FVal) : fleB a b = true ∨ fleB b a = true := by
  cases a <;> cases b <;>
    simp only [fleB, FVal.rank, decide_eq_true_eq] <;>
    exact le_total _ _

theorem fleB_trans {a b c : FVal} (h1 : fleB a b = true) (h2 : fleB b c = true) :
    fleB a c = true := by
  cases a <;> cases b <;> cases c <;>
    simp_all only [fleB, FVal.rank, decide_eq_true_eq] <;>
    first
      | exact le_trans h1 h2
      | omega

/-! ### Stable insertion sort and the pandas descending argsort model -/

/-- Stable insertion of x into a list sorted ascending by le: x is placed
before the first element it is le-below-or-equal to. -/
def insertAsc {α : Type} (le : α → α → Bool) (x : α) : List α → List α
  | [] => [x]
  | y :: ys => if le x y then x :: y :: ys else y :: insertAsc le x ys

/-- Stable insertion sort, ascending by le. -/
def isort {α : Type} (le : α → α → Bool) : List α → List α
  | [] => []
  | x :: xs => insertAsc le x (isort le xs)

theorem insertAsc_perm {α : Type} (le : α → α → Bool) (x : α) (l : List α) :
    insertAsc le x l ~ x :: l := by
  induction l with
  | nil => simp [insertAsc]
  | cons y ys ih =>
    by_cases h : le x y = true
    · simp [insertAsc, h]
    · simp only [insertAsc, h, if_false, Bool.false_eq_true]
      exact ((ih.cons y).trans (List.Perm.swap x y ys))

theorem isort_perm {α : Type} (le : α → α → Bool) (l : List α) :
    isort le l ~ l := by
  induction l with
  | nil => simp [isort]
  | cons x xs ih => exact (insertAsc_perm le x (isort le xs)).trans (ih.cons x)

theorem mem_insertAsc {α : Type} {le : α → α → Bool} {x a : α} {l : List α} :
    a ∈ insertAsc le x l ↔ a = x ∨ a ∈ l := by
  rw [(insertAsc_perm le x l).mem_iff]; simp

theorem insertAsc_sorted {α : Type} {le : α → α → Bool}
    (htot : ∀ a b, le a b = true ∨ le b a = true)
    (htr : ∀ {a b c}, le a b = true → le b c = true → le a c = true)
    (x : α) {l : List α} (hl : l.Pairwise (fun a b => le a b = true)) :
    (insertAsc le x l).Pairwise (fun a b => le a b = true) := by
  induction l with
  | nil => simp [insertAsc]
  | cons y ys ih =>
    rcases List.pairwise_cons.mp hl with ⟨hy, hys⟩
    by_cases h : le x y = true
    · simp only [insertAsc, h, if_true]
      refine List.pairwise_cons.mpr ⟨?_, hl⟩
      intro b hb
      rcases List.mem_cons.mp hb with hb | hb
      · exact hb ▸ h
      · exact htr h (hy b hb)
    · simp only [insertAsc, h, if_false, Bool.false_eq_true]
      refine List.pairwise_cons.mpr ⟨?_, ih hys⟩
      intro b hb
      rcases mem_insertAsc.mp hb with hb | hb
      · rw [hb]
        rcases htot x y with h1 | h1
        · exact absurd h1 h
        · exact h1
      · exact hy b hb

theorem isort_sorted {α : Type} {le : α → α → Bool}
    (htot : ∀ a b, le a b = true ∨ le b a = true)
    (htr : ∀ {a b c}, le a b = true → le b c = true → le a c = true)
    (l : List α) : (isort le l).Pairwise (fun a b => le a b = true) := by
  induction l with
  | nil => simp [isort]
  | cons x xs ih => exact insertAsc_sorted htot htr x ih

/-- Key of the list element at index i (out-of-range reads are irrelevant:
the indexer only holds in-range indices). -/
def keyAt {α : Type} [Inhabited α] (key : α → FVal) (l : List α) (i : ℕ) :
    FVal :=
  key (l.getD i default)

/-- Indices of the rows whose key is not NaN, in original order. -/
def nonNanIdx {α : Type} [Inhabited α] (key : α → FVal) (l : List α) :
    List ℕ :=
  (List.range l.length).filter (fun i => !(keyAt key l i).isNanB)

/-- Indices of the rows whose key is NaN, in original order. -/
def nanIdx {α : Type} [Inhabited α] (key : α → FVal) (l : List α) : List ℕ :=
  (List.range l.length).filter (fun i => (keyAt key l i).isNanB)

/-- The pandas nargsort indexer for sort_values(by=key, ascending=False,
na_position="last"): non-NaN indices reversed, stably arg-sorted ascending,
reversed again; NaN indices appended in original order. -/
def nargsortDesc {α : Type} [Inhabited α] (key : α → FVal) (l : List α) :
    List ℕ :=
  (isort (fun i j => fleB (keyAt key l i) (keyAt key l j))
      (nonNanIdx key l).reverse).reverse ++ nanIdx key l

/-- DataFrame.sort_values(by=key, ascending=False): take rows in indexer
order. -/
def sortValuesDesc {α : Type} [Inhabited α] (key : α → FVal) (l : List α) :
    List α :=
  (nargsortDesc key l).map (fun i => l.getD i default)

theorem map_getD_range {α : Type} (d : α) (l : List α) :
    (List.range l.length).map (fun i => l.getD i d) = l := by
  induction l with
  | nil => simp
  | cons x xs ih =>
    have h : List.range (xs.length + 1) = 0 :: (List.range xs.length).map Nat.succ :=
      List.range_succ_eq_map xs.length
    simp only [List.length_cons, h, List.map_cons, List.map_map]
    refine congrArg (x :: ·) ?_
    calc (List.range xs.length).map ((fun i => (x :: xs).getD i d) ∘ Nat.succ)
        = (List.range xs.length).map (fun i => xs.getD i d) := by
          refine List.map_congr_left ?_
          intro i _
          simp [List.getD]
      _ = xs := ih

theorem nonNan_append_nan_perm {α : Type} [Inhabited α] (key : α → FVal)
    (l : List α) : nonNanIdx key l ++ nanIdx key l ~ List.range l.length := by
  have h := List.filter_append_perm (fun i => !(keyAt key l i).isNanB)
    (List.range l.length)
  simpa [nonNanIdx, nanIdx, Bool.not_not] using h

theorem nargsortDesc_perm {α : Type} [Inhabited α] (key : α → FVal)
    (l : List α) : nargsortDesc key l ~ List.range l.length := by
  have h2 : nargsortDesc key l ~ nonNanIdx key l ++ nanIdx key l := by
    refine List.Perm.append ?_ (List.Perm.refl _)
    exact (List.reverse_perm _).trans
      ((isort_perm _ _).trans (List.reverse_perm _))
  exact h2.trans (nonNan_append_nan_perm key l)

theorem sortValuesDesc_perm {α : Type} [Inhabited α] (key : α → FVal)
    (l : List α) : sortValuesDesc key l ~ l := by
  have h1 := (nargsortDesc_perm key l).map (fun i => l.getD i default)
  rw [map_getD_range] at h1
  exact h1

theorem mem_sortValuesDesc {α : Type} [Inhabited α] {key : α → FVal}
    {l : List α} {a : α} : a ∈ sortValuesDesc key l ↔ a ∈ l :=
  (sortValuesDesc_perm key l).mem_iff

/-- Descending order with NaNs last: a row b may follow a row a exactly when
b is NaN, or neither is NaN and b's key is at most a's key. -/
def afterOk {α : Type} (key : α → FVal) (a b : α) : Prop :=
  (key b).isNanB = true ∨
    ((key a).isNanB = false ∧ fleB (key b) (key a) = true)

theorem fleB_refl (a : FVal) : fleB a a = true := by
  cases a <;> simp [fleB, FVal.rank]

theorem pairwise_and_of_forall {α : Type} {R : α → α → Prop} {p : α → Prop}
    {l : List α} (hall : ∀ x ∈ l, p x) (h : l.Pairwise R) :
    l.Pairwise (fun a b => R a b ∧ p a ∧ p b) := by
  induction l with
  | nil => exact List.Pairwise.nil
  | cons x xs ih =>
    rcases List.pairwise_cons.mp h with ⟨hx, hxs⟩
    refine List.pairwise_cons.mpr ⟨?_, ih (fun y hy => hall y (by simp [hy])) hxs⟩
    intro b hb
    exact ⟨hx b hb, hall x (by simp), hall b (by simp [hb])⟩

theorem mem_nonNanIdx_notNan {α : Type} [Inhabited α] {key : α → FVal}
    {l : List α} {i : ℕ} (h : i ∈ nonNanIdx key l) :
    (keyAt key l i).isNanB = false := by
  have h2 := (List.mem_filter.mp h).2
  simpa using h2

theorem mem_nanIdx_nan {α : Type} [Inhabited α] {key : α → FVal}
    {l : List α} {i : ℕ} (h : i ∈ nanIdx key l) :
    (keyAt key l i).isNanB = true :=
  (List.mem_filter.mp h).2

theorem nargsortDesc_sortedIdx {α : Type} [Inhabited α] (key : α → FVal)
    (l : List α) :
    (nargsortDesc key l).Pairwise
      (fun i j => afterOk (keyAt key l) i j) := by
  unfold nargsortDesc
  rw [List.pairwise_append]
  refine ⟨?_, ?_, ?_⟩
  · -- within the descending non-NaN block
    have hs : (isort (fun i j => fleB (keyAt key l i) (keyAt key l j))
        (nonNanIdx key l).reverse).Pairwise
        (fun i j => fleB (keyAt key l i) (keyAt key l j) = true) :=
      isort_sorted
        (fun a b => fleB_total (keyAt key l a) (keyAt key l b))
        (fun h1 h2 => fleB_trans h1 h2) _
    have hmem : ∀ i ∈ isort (fun i j => fleB (keyAt key l i) (keyAt key l j))
        (nonNanIdx key l).reverse, (keyAt key l i).isNanB = false := by
      intro i hi
      have : i ∈ (nonNanIdx key l).reverse := ((isort_perm _ _).mem_iff).mp hi
      exact mem_nonNanIdx_notNan (List.mem_reverse.mp this)
    have hs2 := pairwise_and_of_forall hmem hs
    rw [List.pairwise_reverse]
    refine hs2.imp ?_
    intro a b hab
    exact Or.inr ⟨hab.2.2, hab.1⟩
  · -- within the NaN block
    refine List.pairwise_of_forall_mem_list ?_
    intro a _ b hb
    exact Or.inl (mem_nanIdx_nan hb)
  · -- across the blocks
    intro i _ j hj
    exact Or.inl (mem_nanIdx_nan hj)

theorem sortValuesDesc_sorted {α : Type} [Inhabited α] (key : α → FVal)
    (l : List α) : (sortValuesDesc key l).Pairwise (afterOk key) := by
  unfold sortValuesDesc
  rw [List.pairwise_map]
  exact (nargsortDesc_sortedIdx key l).imp (fun h => h)

/-!
### detect_patterns: scoring and ranking stage (model.py lines 207-236)

The upstream helpers (create_close_node_rows, create_period_to_patterns,
create_pattern_rows, RecordCounter) live outside src; the scoring stage is
therefore modelled as a function of an arbitrary list of detection rows,
so every statement below covers all possible upstream outputs.  np.log1p
is modelled by an arbitrary rational-valued function parameter.
-/

/-- One pattern detection row, as assembled into pattern_df:
columns period, pattern, length, count, mean, z_score. -/
structure PRow where
  period : String
  pattern : String
  length : ℕ
  count : ℕ
  mean : ℚ
  z_score : ℚ
deriving DecidableEq, Repr, Inhabited

/-- A row of the ranked table: a PRow plus the merged detections column and
the normalized, rounded overall_score. -/
structure SRow where
  period : String
  pattern : String
  length : ℕ
  count : ℕ
  mean : ℚ
  z_score : ℚ
  detections : ℕ
  overall_score : FVal
deriving DecidableEq, Repr, Inhabited

/-- detections: pattern_df.groupby("pattern")["period"].count(), merged back
on "pattern" (a many-to-one inner merge, which preserves the left row
order): each row receives the number of rows of the table that carry its
pattern string (pandas count counts non-null cells; Period cells are
strings, never null). -/
def detectionsOf (rows : List PRow) (p : String) : ℕ :=
  (rows.filter (fun r => r.pattern == p)).length

/-- The raw overall score of a row before normalization:
z_score * length * detections * log1p(count). -/
def prodOf (log1p : ℕ → ℚ) (rows : List PRow) (r : PRow) : ℚ :=
  r.z_score * (r.length : ℚ) * (detectionsOf rows r.pattern : ℚ) *
    log1p r.count

/-- Series.max on a rational-valued column (the empty case never reaches a
division: an empty table has no row to normalize). -/
def listMax : List ℚ → ℚ
  | [] => 0
  | x :: xs => xs.foldl max x

/-- The run's maximum raw overall score. -/
def maxProd (log1p : ℕ → ℚ) (rows : List PRow) : ℚ :=
  listMax (rows.map (prodOf log1p rows))

/-- The scored table before sorting: detections merged in, overall_score
normalized by the column maximum (numpy division semantics: 0/0 is NaN,
nonzero/0 is a signed infinity) and rounded to two decimals. -/
def scoredRows (log1p : ℕ → ℚ) (rows : List PRow) : List SRow :=
  rows.map (fun r =>
    ⟨r.period, r.pattern, r.length, r.count, r.mean, r.z_score,
      detectionsOf rows r.pattern,
      round2F (fdiv (prodOf log1p rows r) (maxProd log1p rows))⟩)

/-- The ranked pattern table returned by detect_patterns:
pattern_df.sort_values("overall_score", ascending=False). -/
def detect_patterns_ranked (log1p : ℕ → ℚ) (rows : List PRow) : List SRow :=
  sortValuesDesc (fun s => s.overall_score) (scoredRows log1p rows)

theorem le_foldl_max (l : List ℚ) (a : ℚ) : a ≤ l.foldl max a := by
  induction l generalizing a with
  | nil => simp
  | cons x xs ih => exact le_trans (le_max_left a x) (ih (max a x))

theorem foldl_max_le_of_mem {l : List ℚ} {a b : ℚ} (h : a ∈ l) :
    a ≤ l.foldl max b := by
  induction l generalizing b with
  | nil => cases h
  | cons x xs ih =>
    rcases List.mem_cons.mp h with hx | hx
    · subst hx
      exact le_trans (le_max_right b a) (le_foldl_max xs (max b a))
    · exact ih hx

theorem mem_le_listMax {l : List ℚ} {a : ℚ} (h : a ∈ l) : a ≤ listMax l := by
  cases l with
  | nil => cases h
  | cons x xs =>
    rcases List.mem_cons.mp h with hx | hx
    · subst hx
      exact le_foldl_max xs a
    · exact foldl_max_le_of_mem hx

theorem foldl_max_mem (l : List ℚ) (b : ℚ) :
    l.foldl max b = b ∨ l.foldl max b ∈ l := by
  induction l generalizing b with
  | nil => exact Or.inl rfl
  | cons x xs ih =>
    rcases ih (max b x) with h | h
    · rcases max_choice b x with hm | hm
      · exact Or.inl (by rw [List.foldl_cons, h, hm])
      · exact Or.inr (by rw [List.foldl_cons, h, hm]; exact List.mem_cons_self x xs)
    · exact Or.inr (List.mem_cons_of_mem x h)

theorem listMax_mem {l : List ℚ} (h : l ≠ []) : listMax l ∈ l := by
  cases l with
  | nil => exact absurd rfl h
  | cons x xs =>
    show xs.foldl max x ∈ x :: xs
    rcases foldl_max_mem xs x with h2 | h2
    · rw [h2]
      exact List.mem_cons_self x xs
    · exact List.mem_cons_of_mem x h2

/-- The unit-interval predicate on a score cell: a finite value in [0,1]
(NaN and infinities do not lie in [0,1]). -/
def scoreInUnit : FVal → Prop
  | .fin q => 0 ≤ q ∧ q ≤ 1
  | _ => False

instance scoreInUnit_dec : DecidablePred scoreInUnit := fun v =>
  match v with
  | .ninf => isFalse (fun h => h)
  | .inf => isFalse (fun h => h)
  | .nan => isFalse (fun h => h)
  | .fin q => inferInstanceAs (Decidable (0 ≤ q ∧ q ≤ 1))

theorem roundHalfEven_bounds {q : ℚ} (h0 : 0 ≤ q) (h1 : q ≤ 100) :
    0 ≤ roundHalfEven q ∧ roundHalfEven q ≤ 100 := by
  have hf0 : (0 : ℤ) ≤ ⌊q⌋ := Int.floor_nonneg.mpr h0
  have hfq : (⌊q⌋ : ℚ) ≤ q := Int.floor_le q
  have hf1 : ⌊q⌋ ≤ 100 := by
    have h2 : (⌊q⌋ : ℚ) ≤ 100 := le_trans hfq h1
    exact_mod_cast h2
  unfold roundHalfEven
  by_cases hc1 : q - (⌊q⌋ : ℚ) < 1/2
  · simp only [hc1, if_true]
    exact ⟨hf0, hf1⟩
  · have hge : (⌊q⌋ : ℚ) + 1/2 ≤ q := by
      push_neg at hc1
      linarith
    have h99 : ⌊q⌋ ≤ 99 := by
      have h2 : (⌊q⌋ : ℚ) < 100 := by linarith
      have h3 : ⌊q⌋ < 100 := by exact_mod_cast h2
      omega
    simp only [hc1, if_false]
    by_cases hc2 : (1 : ℚ)/2 < q - (⌊q⌋ : ℚ) <;> by_cases hc3 : Even ⌊q⌋ <;>
      simp only [hc2, hc3, if_true, if_false] <;> constructor <;> omega

theorem round2_intCast (n : ℤ) : round2 ((n : ℤ) : ℚ) = (n : ℚ) := by
  unfold round2 roundHalfEven
  have h1 : ((n : ℚ) * 100) = ((100 * n : ℤ) : ℚ) := by push_cast; ring
  rw [h1, Int.floor_intCast, sub_self]
  rw [if_pos (by norm_num : (0 : ℚ) < 1/2)]
  push_cast
  field_simp

theorem round2_one : round2 1 = 1 := by
  have h := round2_intCast 1
  norm_num at h
  exact h

theorem round2_neg_one : round2 (-1) = -1 := by
  have h := round2_intCast (-1)
  norm_num at h
  exact h

theorem round2_unit {q : ℚ} (h0 : 0 ≤ q) (h1 : q ≤ 1) :
    0 ≤ round2 q ∧ round2 q ≤ 1 := by
  have hb := roundHalfEven_bounds (q := q * 100) (by linarith) (by linarith)
  unfold round2
  constructor
  · have h2 : (0 : ℚ) ≤ (roundHalfEven (q * 100) : ℚ) := by exact_mod_cast hb.1
    linarith
  · have h2 : (roundHalfEven (q * 100) : ℚ) ≤ 100 := by exact_mod_cast hb.2
    linarith

theorem mem_scoredRows {log1p : ℕ → ℚ} {rows : List PRow} {s : SRow}
    (hs : s ∈ scoredRows log1p rows) :
    ∃ r ∈ rows, s = ⟨r.period, r.pattern, r.length, r.count, r.mean,
      r.z_score, detectionsOf rows r.pattern,
      round2F (fdiv (prodOf log1p rows r) (maxProd log1p rows))⟩ := by
  rcases List.mem_map.mp hs with ⟨r, hr, he⟩
  exact ⟨r, hr, he.symm⟩

theorem mem_ranked_iff {log1p : ℕ → ℚ} {rows : List PRow} {s : SRow} :
    s ∈ detect_patterns_ranked log1p rows ↔ s ∈ scoredRows log1p rows :=
  mem_sortValuesDesc

/-- C1 counterexample: one detection row with z_score = 0 makes the maximum
raw overall score 0; detect_patterns then divides 0 by 0 and returns a
NON-empty ranked table whose row carries a NaN overall_score, instead of
the empty table the claim demands. -/
theorem c1_counterexample :
    maxProd (fun n => (n : ℚ)) [⟨"P1", "a", 1, 5, 0, 0⟩] = 0 ∧
    detect_patterns_ranked (fun n => (n : ℚ)) [⟨"P1", "a", 1, 5, 0, 0⟩] =
      [⟨"P1", "a", 1, 5, 0, 0, 1, FVal.nan⟩] := by
  constructor
  · norm_num [maxProd, listMax, prodOf, detectionsOf, List.filter_cons,
      List.filter_nil]
  · norm_num [detect_patterns_ranked, scoredRows, sortValuesDesc, nargsortDesc,
      nonNanIdx, nanIdx, keyAt, isort, insertAsc, detectionsOf, prodOf, maxProd,
      listMax, fdiv, round2F, fleB, FVal.isNanB, List.filter_cons,
      List.filter_nil, List.range_succ, List.range_zero,
      List.getD_cons_zero, List.getD_cons_succ]

/-- C1 (amended): with no detection rows detect_patterns returns an empty
ranked table; and whenever the maximum raw overall score is nonzero, no row
of the returned table has a NaN overall_score.  (A zero maximum with a
non-empty table instead produces NaN scores: see the counterexample.) -/
theorem c1_empty_and_no_nan_on_nonzero_max (log1p : ℕ → ℚ)
    (rows : List PRow) (hm : maxProd log1p rows ≠ 0) :
    detect_patterns_ranked log1p [] = [] ∧
    ∀ s ∈ detect_patterns_ranked log1p rows,
      s.overall_score ≠ FVal.nan := by
  constructor
  · rfl
  · intro s hs
    rcases mem_scoredRows (mem_ranked_iff.mp hs) with ⟨r, _, he⟩
    subst he
    simp only [fdiv, hm, if_false]
    intro hcon
    cases hcon

/-- C2 counterexample: a detection row with a negative z_score yields a
negative raw score; after max-normalization its overall_score is -1.00,
which does not lie in [0,1], although the ranked table is non-empty. -/
theorem c2_counterexample :
    detect_patterns_ranked (fun n => (n : ℚ))
        [⟨"P1", "a", 1, 5, 0, -1⟩, ⟨"P2", "a", 1, 5, 0, 1⟩] ≠ [] ∧
    ¬ (∀ s ∈ detect_patterns_ranked (fun n => (n : ℚ))
        [⟨"P1", "a", 1, 5, 0, -1⟩, ⟨"P2", "a", 1, 5, 0, 1⟩],
        scoreInUnit s.overall_score) := by
  have heval : detect_patterns_ranked (fun n => (n : ℚ))
      [⟨"P1", "a", 1, 5, 0, -1⟩, ⟨"P2", "a", 1, 5, 0, 1⟩] =
      [⟨"P2", "a", 1, 5, 0, 1, 2, FVal.fin 1⟩,
        ⟨"P1", "a", 1, 5, 0, -1, 2, FVal.fin (-1)⟩] := by
    norm_num [detect_patterns_ranked, scoredRows, sortValuesDesc, nargsortDesc,
      nonNanIdx, nanIdx, keyAt, isort, insertAsc, detectionsOf, prodOf, maxProd,
      listMax, fdiv, round2F, round2_one, round2_neg_one, fleB, FVal.isNanB,
      List.filter_cons, List.filter_nil, List.range_succ, List.range_zero,
      List.getD_cons_zero, List.getD_cons_succ]
  rw [heval]
  constructor
  · simp
  · intro hcon
    have h2 := hcon ⟨"P1", "a", 1, 5, 0, -1, 2, FVal.fin (-1)⟩ (by simp)
    rcases h2 with ⟨h3, _⟩
    norm_num at h3

/-- C2 (amended): whenever some detection row has a positive raw score and
no row has a negative raw score, every overall_score of the ranked table
lies in [0,1] and some row scores exactly 1.00 (so the maximum
overall_score rounds to exactly 1.00). -/
theorem c2_scores_unit_and_max_one (log1p : ℕ → ℚ) (rows : List PRow)
    (hpos : ∃ r ∈ rows, 0 < prodOf log1p rows r)
    (hnn : ∀ r ∈ rows, 0 ≤ prodOf log1p rows r) :
    (∀ s ∈ detect_patterns_ranked log1p rows,
      scoreInUnit s.overall_score) ∧
    (∃ s ∈ detect_patterns_ranked log1p rows,
      s.overall_score = FVal.fin 1) := by
  rcases hpos with ⟨r0, hr0, hp0⟩
  have hmpos : 0 < maxProd log1p rows := by
    have h1 : prodOf log1p rows r0 ∈ rows.map (prodOf log1p rows) :=
      List.mem_map.mpr ⟨r0, hr0, rfl⟩
    exact lt_of_lt_of_le hp0 (mem_le_listMax h1)
  have hm : maxProd log1p rows ≠ 0 := ne_of_gt hmpos
  constructor
  · intro s hs
    rcases mem_scoredRows (mem_ranked_iff.mp hs) with ⟨r, hr, he⟩
    subst he
    have hple : prodOf log1p rows r ≤ maxProd log1p rows :=
      mem_le_listMax (List.mem_map.mpr ⟨r, hr, rfl⟩)
    have hpnn : 0 ≤ prodOf log1p rows r := hnn r hr
    simp only [fdiv, hm, if_false, round2F]
    have hq0 : 0 ≤ prodOf log1p rows r / maxProd log1p rows :=
      div_nonneg hpnn (le_of_lt hmpos)
    have hq1 : prodOf log1p rows r / maxProd log1p rows ≤ 1 :=
      (div_le_one hmpos).mpr hple
    exact round2_unit hq0 hq1
  · have hne : rows.map (prodOf log1p rows) ≠ [] := by
      intro hcon
      rw [List.map_eq_nil_iff] at hcon
      subst hcon
      cases hr0
    have hmem : maxProd log1p rows ∈ rows.map (prodOf log1p rows) :=
      listMax_mem hne
    rcases List.mem_map.mp hmem with ⟨r1, hr1, he1⟩
    refine ⟨⟨r1.period, r1.pattern, r1.length, r1.count, r1.mean,
      r1.z_score, detectionsOf rows r1.pattern,
      round2F (fdiv (prodOf log1p rows r1) (maxProd log1p rows))⟩, ?_, ?_⟩
    · exact mem_ranked_iff.mpr (List.mem_map.mpr ⟨r1, hr1, rfl⟩)
    · simp only [fdiv, hm, if_false, round2F, he1]
      rw [div_self hm, round2_one]

/-- C3: every row of the ranked table has overall_score equal to
z_score * length * detections * log1p(count), divided (with numpy division
semantics) by the maximum of that product over all rows, rounded to two
decimals half-to-even. -/
theorem c3_overall_score_formula (log1p : ℕ → ℚ) (rows : List PRow)
    (s : SRow) (hs : s ∈ detect_patterns_ranked log1p rows) :
    s.overall_score =
      round2F (fdiv (s.z_score * (s.length : ℚ) *
          (detectionsOf rows s.pattern : ℚ) * log1p s.count)
        (listMax (rows.map (prodOf log1p rows)))) := by
  rcases mem_scoredRows (mem_ranked_iff.mp hs) with ⟨r, _, he⟩
  subst he
  rfl

/-- C3 witness at a concrete input. -/
theorem c3_overall_score_formula_witness :
    (⟨"P1", "a", 1, 5, 0, 1, 1, FVal.fin 1⟩ : SRow) ∈
      detect_patterns_ranked (fun n => (n : ℚ)) [⟨"P1", "a", 1, 5, 0, 1⟩] ∧
    (⟨"P1", "a", 1, 5, 0, 1, 1, FVal.fin 1⟩ : SRow).overall_score =
      round2F (fdiv ((1 : ℚ) * (1 : ℚ) *
          (detectionsOf [⟨"P1", "a", 1, 5, 0, 1⟩] "a" : ℚ) * ((5 : ℕ) : ℚ))
        (listMax ([⟨"P1", "a", 1, 5, 0, 1⟩].map
          (prodOf (fun n => (n : ℚ)) [⟨"P1", "a", 1, 5, 0, 1⟩])))) :=
  ⟨by
    norm_num [detect_patterns_ranked, scoredRows, sortValuesDesc, nargsortDesc,
      nonNanIdx, nanIdx, keyAt, isort, insertAsc, detectionsOf, prodOf, maxProd,
      listMax, fdiv, round2F, round2_one, round2_neg_one, fleB, FVal.isNanB,
      List.filter_cons, List.filter_nil, List.range_succ, List.range_zero,
      List.getD_cons_zero, List.getD_cons_succ],
    c3_overall_score_formula (fun n => (n : ℚ)) [⟨"P1", "a", 1, 5, 0, 1⟩]
      ⟨"P1", "a", 1, 5, 0, 1, 1, FVal.fin 1⟩ (by
    norm_num [detect_patterns_ranked, scoredRows, sortValuesDesc, nargsortDesc,
      nonNanIdx, nanIdx, keyAt, isort, insertAsc, detectionsOf, prodOf, maxProd,
      listMax, fdiv, round2F, round2_one, round2_neg_one, fleB, FVal.isNanB,
      List.filter_cons, List.filter_nil, List.range_succ, List.range_zero,
      List.getD_cons_zero, List.getD_cons_succ])⟩

/-- C5: if no pattern carries two detection rows with the same period
(the upstream Pattern Aggregator emits at most one row per
(period, pattern), per the spec), then every row of the ranked table
stores in detections the number of distinct periods in which its pattern
has a detection row, and all rows of one pattern agree on that value. -/
theorem c5_detections_distinct_periods (log1p : ℕ → ℚ) (rows : List PRow)
    (h : ∀ p : String, ((rows.filter (fun r => r.pattern == p)).map
        (fun r => r.period)).Nodup)
    (s : SRow) (hs : s ∈ detect_patterns_ranked log1p rows) :
    s.detections = ((rows.filter (fun r => r.pattern == s.pattern)).map
        (fun r => r.period)).dedup.length ∧
    (∀ t ∈ detect_patterns_ranked log1p rows, t.pattern = s.pattern →
      t.detections = s.detections) := by
  have hdet : ∀ u ∈ detect_patterns_ranked log1p rows,
      u.detections = detectionsOf rows u.pattern := by
    intro u hu
    rcases mem_scoredRows (mem_ranked_iff.mp hu) with ⟨r, _, he⟩
    subst he
    rfl
  constructor
  · rw [hdet s hs, List.Nodup.dedup (h s.pattern), List.length_map]
    rfl
  · intro t ht hpt
    rw [hdet t ht, hdet s hs, hpt]

/-- C5 witness at a concrete input. -/
theorem c5_detections_distinct_periods_witness :
    (⟨"P1", "a", 1, 5, 0, 1, 2, FVal.fin 1⟩ : SRow) ∈
      detect_patterns_ranked (fun n => (n : ℚ))
        [⟨"P1", "a", 1, 5, 0, 1⟩, ⟨"P2", "a", 1, 5, 0, 1⟩] ∧
    (⟨"P1", "a", 1, 5, 0, 1, 2, FVal.fin 1⟩ : SRow).detections =
      (([⟨"P1", "a", 1, 5, 0, 1⟩, ⟨"P2", "a", 1, 5, 0, 1⟩].filter
          (fun r : PRow => r.pattern == "a")).map
        (fun r => r.period)).dedup.length :=
  ⟨by
    norm_num [detect_patterns_ranked, scoredRows, sortValuesDesc, nargsortDesc,
      nonNanIdx, nanIdx, keyAt, isort, insertAsc, detectionsOf, prodOf, maxProd,
      listMax, fdiv, round2F, round2_one, round2_neg_one, fleB, FVal.isNanB,
      List.filter_cons, List.filter_nil, List.range_succ, List.range_zero,
      List.getD_cons_zero, List.getD_cons_succ],
    (c5_detections_distinct_periods (fun n => (n : ℚ))
      [⟨"P1", "a", 1, 5, 0, 1⟩, ⟨"P2", "a", 1, 5, 0, 1⟩]
      (by
        intro p
        by_cases hp : p = "a"
        · subst hp; decide
        · have h1 : ∀ r : PRow, r ∈ ([⟨"P1", "a", 1, 5, 0, 1⟩,
              ⟨"P2", "a", 1, 5, 0, 1⟩] : List PRow) →
              (r.pattern == p) = false := by
            intro r hr
            have h2 : r.pattern = "a" := by
              rcases List.mem_cons.mp hr with h3 | h3
              · rw [h3]
              · rcases List.mem_cons.mp h3 with h4 | h4
                · rw [h4]
                · cases h4
            rw [h2]
            exact beq_eq_false_iff_ne.mpr (fun h5 => hp h5.symm)
          rw [List.filter_eq_nil_iff.mpr (fun r hr => by rw [h1 r hr]; simp)]
          simp)
      ⟨"P1", "a", 1, 5, 0, 1, 2, FVal.fin 1⟩ (by
    norm_num [detect_patterns_ranked, scoredRows, sortValuesDesc, nargsortDesc,
      nonNanIdx, nanIdx, keyAt, isort, insertAsc, detectionsOf, prodOf, maxProd,
      listMax, fdiv, round2F, round2_one, round2_neg_one, fleB, FVal.isNanB,
      List.filter_cons, List.filter_nil, List.range_succ, List.range_zero,
      List.getD_cons_zero, List.getD_cons_succ])).1⟩

/-- C1 amended-theorem witness at a concrete input. -/
theorem c1_empty_and_no_nan_witness :
    maxProd (fun n => (n : ℚ)) [⟨"P1", "a", 1, 5, 0, 1⟩] ≠ 0 ∧
    detect_patterns_ranked (fun n => (n : ℚ)) [] = [] :=
  ⟨by norm_num [maxProd, listMax, prodOf, detectionsOf, List.filter],
    (c1_empty_and_no_nan_on_nonzero_max (fun n => (n : ℚ))
      [⟨"P1", "a", 1, 5, 0, 1⟩]
      (by norm_num [maxProd, listMax, prodOf, detectionsOf, List.filter])).1⟩

/-- C2 amended-theorem witness at a concrete input. -/
theorem c2_scores_unit_and_max_one_witness :
    (∀ s ∈ detect_patterns_ranked (fun n => (n : ℚ))
        [⟨"P1", "a", 1, 5, 0, 1⟩], scoreInUnit s.overall_score) ∧
    (∃ s ∈ detect_patterns_ranked (fun n => (n : ℚ))
        [⟨"P1", "a", 1, 5, 0, 1⟩], s.overall_score = FVal.fin 1) :=
  c2_scores_unit_and_max_one (fun n => (n : ℚ)) [⟨"P1", "a", 1, 5, 0, 1⟩]
    ⟨⟨"P1", "a", 1, 5, 0, 1⟩, by simp,
      by norm_num [prodOf, detectionsOf, List.filter]⟩
    (by norm_num [prodOf, detectionsOf, List.filter])

/-!
### generate_graph_model (model.py lines 82-112)

Dataframes are modelled as a header of column names plus rows of string
cells (model_df is converted to strings by astype(str) before any cell is
read, so string cells lose no generality).  The cleaning chain
fix_null_ints / astype(str) / replace("nan","") / replace("<NA>","") is
modelled by an arbitrary cell-wise function clean : String → String
(fix_null_ints lives in toolkit/helpers/df_functions, outside src); the
theorems hold for every such function.
-/

structure RawTable where
  cols : List String
  rows : List (List String)
deriving DecidableEq, Repr, Inhabited

/-- Cell of a row under a column name: lookup of the column position in the
header, defaulting to the empty string out of range (the theorems carry the
column-membership hypotheses under which the real code raises no
KeyError). -/
def cellD (cols : List String) (row : List String) (c : String) : String :=
  match cols.findIdx? (fun c2 => c2 == c) with
  | some i => row.getD i ""
  | none => ""

/-- The attribute columns: every column of df other than "Subject ID" and
the period column (model.py lines 83-85). -/
def attCols (df : RawTable) (perCol : String) : List String :=
  df.cols.filter (fun c => !(c == "Subject ID" || c == perCol))

/-- A row of the standardized dynamic table. -/
structure DynRow where
  sid : String
  period : String
  attType : String
  attValue : String
  fullAttribute : String
deriving DecidableEq, Repr, Inhabited

/-- One melted column of the graph model: for attribute column c, one
record per source row i, with Subject ID overwritten by the string of the
1-based row position (line 92), Period the cleaned period cell (line 98),
and Full Attribute the attribute type and value joined by the separator
(lines 108-111). -/
def meltCol (clean : String → String) (df : RawTable) (perCol sep c : String) :
    List DynRow :=
  (List.range df.rows.length).map (fun i =>
    let row := df.rows.getD i []
    let v := clean (cellD df.cols row c)
    ⟨toString (i + 1), clean (cellD df.cols row perCol), c, v, c ++ sep ++ v⟩)

/-- generate_graph_model: melt the attribute columns (pd.melt stacks the
value columns one after the other), drop rows with empty Attribute Value
(line 107), then drop rows with empty Period (line 112). -/
def generate_graph_model (clean : String → String) (df : RawTable)
    (perCol sep : String) : List DynRow :=
  ((((attCols df perCol).map (meltCol clean df perCol sep)).flatten).filter
      (fun r => !(r.attValue == ""))).filter (fun r => !(r.period == ""))

theorem mem_generate_graph_model {clean : String → String} {df : RawTable}
    {perCol sep : String} {r : DynRow}
    (hr : r ∈ generate_graph_model clean df perCol sep) :
    (r.attValue ≠ "" ∧ r.period ≠ "") ∧
    ∃ c ∈ attCols df perCol, ∃ i : ℕ, i < df.rows.length ∧
      r = ⟨toString (i + 1),
        clean (cellD df.cols (df.rows.getD i []) perCol), c,
        clean (cellD df.cols (df.rows.getD i []) c),
        c ++ sep ++ clean (cellD df.cols (df.rows.getD i []) c)⟩ := by
  rcases List.mem_filter.mp hr with ⟨hr2, hp⟩
  rcases List.mem_filter.mp hr2 with ⟨hr3, hv⟩
  constructor
  · constructor
    · simpa using hv
    · simpa using hp
  · rcases List.mem_flatten.mp hr3 with ⟨l, hl, hrl⟩
    rcases List.mem_map.mp hl with ⟨c, hc, hlc⟩
    subst hlc
    rcases List.mem_map.mp hrl with ⟨i, hi, he⟩
    exact ⟨c, hc, i, List.mem_range.mp hi, he.symm⟩

/-- C7: every row of the dynamic table returned by generate_graph_model has
a non-empty Attribute Value and a non-empty Period, and its Full Attribute
is the Attribute Type and Attribute Value joined by type_val_sep. -/
theorem c7_dynamic_rows_shape (clean : String → String) (df : RawTable)
    (perCol sep : String) (_hper : perCol ≠ "Subject ID")
    (_hmem : perCol ∈ df.cols) (r : DynRow)
    (hr : r ∈ generate_graph_model clean df perCol sep) :
    r.attValue ≠ "" ∧ r.period ≠ "" ∧
      r.fullAttribute = r.attType ++ sep ++ r.attValue := by
  rcases mem_generate_graph_model hr with ⟨⟨hv, hp⟩, c, _, i, _, he⟩
  subst he
  exact ⟨hv, hp, rfl⟩

/-- C7 witness at a concrete table. -/
theorem c7_dynamic_rows_shape_witness :
    (("t" : String) ≠ "Subject ID" ∧ "t" ∈ (["Subject ID", "t", "A"] : List String) ∧
      (⟨"1", "p1", "A", "v1", "A=v1"⟩ : DynRow) ∈
        generate_graph_model (fun s => s) ⟨["Subject ID", "t", "A"], [["x", "p1", "v1"]]⟩ "t" "=") ∧
    ((⟨"1", "p1", "A", "v1", "A=v1"⟩ : DynRow).attValue ≠ "" ∧
      (⟨"1", "p1", "A", "v1", "A=v1"⟩ : DynRow).period ≠ "" ∧
      (⟨"1", "p1", "A", "v1", "A=v1"⟩ : DynRow).fullAttribute =
        (⟨"1", "p1", "A", "v1", "A=v1"⟩ : DynRow).attType ++ "=" ++
          (⟨"1", "p1", "A", "v1", "A=v1"⟩ : DynRow).attValue) :=
  ⟨⟨by decide, by decide, by decide⟩,
    c7_dynamic_rows_shape (fun s => s) ⟨["Subject ID", "t", "A"], [["x", "p1", "v1"]]⟩
      "t" "=" (by decide) (by decide) ⟨"1", "p1", "A", "v1", "A=v1"⟩ (by decide)⟩

/-- C9: generate_graph_model ignores the caller's Subject ID cells: two
tables with the same header, the same number of rows, and identical cells
outside the "Subject ID" column produce the same output, and every output
row's Subject ID is the string of the 1-based position of its source row. -/
theorem c9_subject_id_positional (clean : String → String)
    (df df2 : RawTable) (perCol sep : String)
    (hcols : df2.cols = df.cols) (hlen : df2.rows.length = df.rows.length)
    (hcells : ∀ i : ℕ, ∀ c : String, c ≠ "Subject ID" →
      cellD df.cols (df.rows.getD i []) c =
        cellD df2.cols (df2.rows.getD i []) c)
    (hper : perCol ≠ "Subject ID") :
    generate_graph_model clean df perCol sep =
      generate_graph_model clean df2 perCol sep ∧
    ∀ r ∈ generate_graph_model clean df perCol sep,
      ∃ i : ℕ, i < df.rows.length ∧ r.sid = toString (i + 1) := by
  constructor
  · unfold generate_graph_model
    have hatt : attCols df2 perCol = attCols df perCol := by
      unfold attCols
      rw [hcols]
    rw [hatt]
    have hmelt : ∀ c ∈ attCols df perCol,
        meltCol clean df perCol sep c = meltCol clean df2 perCol sep c := by
      intro c hc
      have hcne : c ≠ "Subject ID" := by
        rcases List.mem_filter.mp hc with ⟨_, h2⟩
        intro he
        subst he
        simp at h2
      unfold meltCol
      rw [hlen]
      refine List.map_congr_left ?_
      intro i _
      simp only [hcells i c hcne, hcells i perCol hper]
    rw [List.map_congr_left hmelt]
  · intro r hr
    rcases mem_generate_graph_model hr with ⟨_, c, _, i, hi, he⟩
    subst he
    exact ⟨i, hi, rfl⟩

/-- C9 witness at a concrete table (the two tables taken equal, which
satisfies the agreement hypotheses definitionally). -/
theorem c9_subject_id_positional_witness :
    generate_graph_model (fun s => s)
        ⟨["Subject ID", "t", "A"], [["x", "p1", "v1"]]⟩ "t" "=" =
      generate_graph_model (fun s => s)
        ⟨["Subject ID", "t", "A"], [["x", "p1", "v1"]]⟩ "t" "=" ∧
    ∃ i : ℕ, i < (⟨["Subject ID", "t", "A"], [["x", "p1", "v1"]]⟩ : RawTable).rows.length ∧
      (⟨"1", "p1", "A", "v1", "A=v1"⟩ : DynRow).sid = toString (i + 1) :=
  ⟨(c9_subject_id_positional (fun s => s)
      ⟨["Subject ID", "t", "A"], [["x", "p1", "v1"]]⟩
      ⟨["Subject ID", "t", "A"], [["x", "p1", "v1"]]⟩ "t" "=" rfl rfl
      (fun _ _ _ => rfl) (by decide)).1,
    (c9_subject_id_positional (fun s => s)
      ⟨["Subject ID", "t", "A"], [["x", "p1", "v1"]]⟩
      ⟨["Subject ID", "t", "A"], [["x", "p1", "v1"]]⟩ "t" "=" rfl rfl
      (fun _ _ _ => rfl) (by decide)).2
      ⟨"1", "p1", "A", "v1", "A=v1"⟩ (by decide)⟩

/-!
### prepare_data (model.py lines 23-30): frame effect on the input

prepare_data assigns data_df["Subject ID"] before any other step; the
caller's dataframe is mutated in place.  The effect is modelled as an
explicit state transformer returning the post-state of the argument.
-/

/-- Values of a named column, one per row. -/
def getCol (df : RawTable) (c : String) : List String :=
  (List.range df.rows.length).map (fun i => cellD df.cols (df.rows.getD i []) c)

/-- The in-place assignment data_df[c] = vals: overwrites the cells of the
column when it exists, else appends it as a new last column. -/
def assignCol (df : RawTable) (c : String) (vals : List String) : RawTable :=
  match df.cols.findIdx? (fun c2 => c2 == c) with
  | some j => ⟨df.cols,
      (List.range df.rows.length).map (fun i =>
        (df.rows.getD i []).set j (vals.getD i ""))⟩
  | none => ⟨df.cols ++ [c],
      (List.range df.rows.length).map (fun i =>
        df.rows.getD i [] ++ [vals.getD i ""])⟩

/-- The in-place effect of prepare_data on the caller's dataframe
(model.py lines 24-27): with identifier_col None, "Subject ID" is assigned
list(range(len(data_df))) before anything else is computed (integer cells
modelled by their decimal strings).  With an identifier_col, the
right-hand side data_df.value[identifier_col] raises AttributeError for a
dataframe without a "value" attribute before any assignment happens, so no
post-state is defined: modelled as none. -/
def prepare_data_effect (df : RawTable) (identifier_col : Option String) :
    Option RawTable :=
  match identifier_col with
  | none => some (assignCol df "Subject ID"
      ((List.range df.rows.length).map (fun i => toString i)))
  | some _ => none

theorem getD_map_range {α : Type} (f : ℕ → α) (n i : ℕ) (d : α)
    (hi : i < n) : ((List.range n).map f).getD i d = f i := by
  simp [List.getElem?_range, hi]

theorem cellD_of_findIdx {cols : List String} {c : String} {j : ℕ}
    (h : cols.findIdx? (fun c2 => c2 == c) = some j) (row : List String) :
    cellD cols row c = row.getD j "" := by
  unfold cellD
  rw [h]

/-- C10: a completing call of prepare_data (identifier_col None) leaves the
caller's dataframe with a "Subject ID" column holding the row positions
0..n-1; when the input had no such column, the dataframe has changed. -/
theorem c10_prepare_data_mutates (df : RawTable)
    (hwf : ∀ row ∈ df.rows, row.length = df.cols.length) :
    ∃ df2, prepare_data_effect df none = some df2 ∧
      "Subject ID" ∈ df2.cols ∧
      getCol df2 "Subject ID" =
        (List.range df.rows.length).map (fun i => toString i) ∧
      ("Subject ID" ∉ df.cols → df2 ≠ df) := by
  refine ⟨assignCol df "Subject ID"
    ((List.range df.rows.length).map (fun i => toString i)), rfl, ?_⟩
  unfold assignCol
  cases hfind : df.cols.findIdx? (fun c2 => c2 == "Subject ID") with
  | some j =>
    rcases List.findIdx?_eq_some_iff_getElem.mp hfind with ⟨hj, hpj, _⟩
    have hcj : df.cols[j] = "Subject ID" := by
      have := hpj
      simpa using this
    have hmem : "Subject ID" ∈ df.cols := hcj ▸ List.getElem_mem hj
    refine ⟨hmem, ?_, fun hno => absurd hmem hno⟩
    unfold getCol
    simp only [List.length_map, List.length_range]
    refine List.map_congr_left ?_
    intro i hi
    have hin : i < df.rows.length := List.mem_range.mp hi
    rw [cellD_of_findIdx hfind]
    rw [getD_map_range _ _ _ _ hin]
    have hrow : (df.rows.getD i []) ∈ df.rows := by
      rw [List.getD_eq_getElem?_getD, List.getElem?_eq_getElem hin]
      exact List.getElem_mem hin
    have hlen : (df.rows.getD i []).length = df.cols.length := hwf _ hrow
    have hjr : j < (df.rows.getD i []).length := by omega
    rw [getD_map_range _ _ _ _ hin]
    rw [List.getD_eq_getElem?_getD, List.getElem?_set_self hjr]
    rfl
  | none =>
    have hmem : "Subject ID" ∈ df.cols ++ ["Subject ID"] := by simp
    refine ⟨hmem, ?_, fun _ => ?_⟩
    · have hfind2 : (df.cols ++ ["Subject ID"]).findIdx?
          (fun c2 => c2 == "Subject ID") = some (0 + df.cols.length) := by
        rw [List.findIdx?_append, hfind]
        simp
      unfold getCol
      simp only [List.length_map, List.length_range]
      refine List.map_congr_left ?_
      intro i hi
      have hin : i < df.rows.length := List.mem_range.mp hi
      rw [cellD_of_findIdx hfind2]
      rw [getD_map_range _ _ _ _ hin]
      have hrow : (df.rows.getD i []) ∈ df.rows := by
        rw [List.getD_eq_getElem?_getD, List.getElem?_eq_getElem hin]
        exact List.getElem_mem hin
      have hlen : (df.rows.getD i []).length = df.cols.length := hwf _ hrow
      rw [getD_map_range _ _ _ _ hin]
      have h0 : 0 + df.cols.length = (df.rows.getD i []).length := by omega
      rw [h0]
      rw [List.getD_eq_getElem?_getD, List.getElem?_concat_length]
      rfl
    · intro hcon
      have h2 : (df.cols ++ ["Subject ID"]).length = df.cols.length :=
        congrArg (fun t => t.cols.length) hcon
      simp at h2

/-- C10 witness at a concrete table without a Subject ID column. -/
theorem c10_prepare_data_mutates_witness :
    ∃ df2, prepare_data_effect ⟨["A"], [["v"]]⟩ none = some df2 ∧
      "Subject ID" ∈ df2.cols ∧
      getCol df2 "Subject ID" =
        (List.range (⟨["A"], [["v"]]⟩ : RawTable).rows.length).map
          (fun i => toString i) ∧
      ("Subject ID" ∉ (⟨["A"], [["v"]]⟩ : RawTable).cols → df2 ≠ ⟨["A"], [["v"]]⟩) :=
  c10_prepare_data_mutates ⟨["A"], [["v"]]⟩ (by decide)

/-!
### compute_attribute_counts (model.py lines 115-148)

The same dataframe model is used; the cleaning chain
fix_null_ints / replace({"nan":"","<NA>":""}) / astype(str) is again an
arbitrary cell-wise function.  python str.split is modelled by a
structurally recursive scanner over character lists (one unit of fuel per
scanning step; fuel = length of the string completes the scan), splitting
at leftmost non-overlapping occurrences of a non-empty separator.
-/

/-- Scanner for python str.split: fuel-indexed so the recursion is
structural; each step consumes at least one character, so fuel equal to
the length of the input is enough. -/
def pySplitGo (sep : List Char) : ℕ → List Char → List Char → List (List Char)
  | _, [], acc => [acc.reverse]
  | 0, cs, acc => [acc.reverse ++ cs]
  | f + 1, c :: rest, acc =>
    if sep.isPrefixOf (c :: rest) then
      acc.reverse :: pySplitGo sep f (List.drop sep.length (c :: rest)) []
    else
      pySplitGo sep f rest (c :: acc)

/-- python s.split(sep) for a non-empty separator (an empty separator makes
python raise ValueError; the theorems below assume sep nonempty). -/
def pySplit (s sep : String) : List String :=
  (pySplitGo sep.data s.data.length s.data []).map (fun cs => String.mk cs)

/-- The pattern- and period-filtered rows (model.py lines 116-129): keep
the rows whose cleaned period cell equals the requested period, then filter
one conjunct of the pattern at a time.  A conjunct equal to "Subject ID"
or not containing the separator is skipped; otherwise the conjunct is
unpacked as attribute, value: with three or more split parts the unpacking
raises ValueError, and a missing attribute column raises KeyError — both
modelled as none. -/
def filteredRows (clean : String → String) (df : RawTable)
    (pattern perCol sep period : String) : Option (List (List String)) :=
  (pySplit pattern " & ").foldl (fun acc att =>
    acc.bind (fun rs =>
      if att == "Subject ID" then some rs
      else match pySplit att sep with
        | [_] => some rs
        | [a, v] =>
          if a ∈ df.cols then
            some (rs.filter (fun row => clean (cellD df.cols row a) == v))
          else none
        | _ => none))
    (some (df.rows.filter (fun row => clean (cellD df.cols row perCol) == period)))

/-- A melted observation: Subject ID, attribute column, cleaned value. -/
structure MRow where
  sid : String
  att : String
  value : String
deriving DecidableEq, Repr, Inhabited

/-- The melt of the filtered rows over the non-Subject-ID, non-period
columns (lines 132-139), dropping empty values. -/
def meltedOf (clean : String → String) (df : RawTable) (perCol : String)
    (frows : List (List String)) : List MRow :=
  (((attCols df perCol).map (fun c =>
      frows.map (fun row =>
        (⟨clean (cellD df.cols row "Subject ID"), c,
          clean (cellD df.cols row c)⟩ : MRow)))).flatten).filter
    (fun m => !(m.value == ""))

/-- AttributeValue = Attribute + type_val_sep + Value (line 140). -/
def attvalOf (sep : String) (m : MRow) : String := m.att ++ sep ++ m.value

/-- nunique of Subject ID within one AttributeValue group (lines 143-146). -/
def distinctCount (melted : List MRow) (sep k : String) : ℕ :=
  ((melted.filter (fun m => attvalOf sep m == k)).map
    (fun m => m.sid)).dedup.length

/-- Ascending key order of pandas groupby (sort=True). -/
def sortStrAsc (l : List String) : List String :=
  isort (fun a b => a == b || decide (a < b)) l

/-- groupby("AttributeValue")["Subject ID"].nunique().reset_index: one row
per distinct AttributeValue, keys ascending. -/
def groupCounts (melted : List MRow) (sep : String) : List (String × ℕ) :=
  (sortStrAsc ((melted.map (attvalOf sep)).dedup)).map
    (fun k => (k, distinctCount melted sep k))

/-- sort_values(by="Count", ascending=False) through the pandas nargsort
model. -/
def sortByCountDesc (l : List (String × ℕ)) : List (String × ℕ) :=
  sortValuesDesc (fun p => FVal.fin ((p.2 : ℕ) : ℚ)) l

/-- compute_attribute_counts; none models a raised KeyError/ValueError. -/
def compute_attribute_counts (clean : String → String) (df : RawTable)
    (pattern perCol period sep : String) : Option (List (String × ℕ)) :=
  if perCol ∈ df.cols ∧ "Subject ID" ∈ df.cols then
    (filteredRows clean df pattern perCol sep period).map (fun frows =>
      sortByCountDesc (groupCounts (meltedOf clean df perCol frows) sep))
  else none

theorem sortByCountDesc_perm (l : List (String × ℕ)) : sortByCountDesc l ~ l :=
  sortValuesDesc_perm _ _

theorem sortByCountDesc_sorted (l : List (String × ℕ)) :
    (sortByCountDesc l).Pairwise (fun a b => b.2 ≤ a.2) := by
  have hs := sortValuesDesc_sorted
    (fun p : String × ℕ => FVal.fin ((p.2 : ℕ) : ℚ)) l
  refine hs.imp ?_
  intro a b hab
  rcases hab with h1 | ⟨_, h2⟩
  · simp [FVal.isNanB] at h1
  · have h3 : ((b.2 : ℕ) : ℚ) ≤ ((a.2 : ℕ) : ℚ) := by
      simpa [fleB] using h2
    exact_mod_cast h3

theorem groupCounts_map_fst (melted : List MRow) (sep : String) :
    (groupCounts melted sep).map Prod.fst =
      sortStrAsc ((melted.map (attvalOf sep)).dedup) := by
  unfold groupCounts
  rw [List.map_map]
  show (sortStrAsc _).map (fun k => k) = _
  exact List.map_id' _

theorem mem_groupCounts_fst_iff {melted : List MRow} {sep k : String} :
    k ∈ (groupCounts melted sep).map Prod.fst ↔
      ∃ m ∈ melted, attvalOf sep m = k := by
  rw [groupCounts_map_fst]
  unfold sortStrAsc
  rw [(isort_perm _ _).mem_iff, List.mem_dedup, List.mem_map]

/-- C8: whenever compute_attribute_counts returns a table, that table has
one row per attribute=value string occurring (with non-empty value) among
the melted observations of the subjects of the period that match every
conjunct of the pattern; each row's Count is the number of distinct
Subject IDs holding that attribute=value; and the rows are sorted by Count
descending. -/
theorem c8_attribute_counts (clean : String → String) (df : RawTable)
    (pattern perCol period sep : String) (_hsep : sep ≠ "")
    (t : List (String × ℕ))
    (hres : compute_attribute_counts clean df pattern perCol period sep =
      some t) :
    ∃ frows, filteredRows clean df pattern perCol sep period = some frows ∧
      (t.map Prod.fst).Nodup ∧
      (∀ k : String, k ∈ t.map Prod.fst ↔
        ∃ m ∈ meltedOf clean df perCol frows, attvalOf sep m = k) ∧
      (∀ kc ∈ t, kc.2 = distinctCount (meltedOf clean df perCol frows) sep kc.1) ∧
      t.Pairwise (fun a b => b.2 ≤ a.2) := by
  unfold compute_attribute_counts at hres
  by_cases hg : perCol ∈ df.cols ∧ "Subject ID" ∈ df.cols
  case neg =>
    rw [if_neg hg] at hres
    cases hres
  rw [if_pos hg] at hres
  cases hfr : filteredRows clean df pattern perCol sep period with
  | none =>
    rw [hfr] at hres
    cases hres
  | some frows =>
    rw [hfr] at hres
    simp only [Option.map_some'] at hres
    have ht : t = sortByCountDesc
        (groupCounts (meltedOf clean df perCol frows) sep) :=
      (Option.some.inj hres).symm
    subst ht
    have hperm := sortByCountDesc_perm
      (groupCounts (meltedOf clean df perCol frows) sep)
    refine ⟨frows, rfl, ?_, ?_, ?_, sortByCountDesc_sorted _⟩
    · rw [List.Perm.nodup_iff (hperm.map Prod.fst)]
      rw [groupCounts_map_fst]
      unfold sortStrAsc
      rw [List.Perm.nodup_iff (isort_perm _ _)]
      exact ((meltedOf clean df perCol frows).map (attvalOf sep)).nodup_dedup
    · intro k
      rw [(hperm.map Prod.fst).mem_iff]
      exact mem_groupCounts_fst_iff
    · intro kc hkc
      have hp : kc ∈ groupCounts (meltedOf clean df perCol frows) sep :=
        hperm.mem_iff.mp hkc
      unfold groupCounts at hp
      rcases List.mem_map.mp hp with ⟨k, _, he⟩
      rw [he.symm]

/-- C8 witness at a concrete table, pattern and period. -/
theorem c8_attribute_counts_witness :
    (("=" : String) ≠ "") ∧
    compute_attribute_counts (fun s => s)
      ⟨["Subject ID", "t", "A"], [["s1", "p", "x"], ["s2", "p", "x"]]⟩
      "A=x" "t" "p" "=" = some [("A=x", 2)] ∧
    ∃ frows, filteredRows (fun s => s)
        ⟨["Subject ID", "t", "A"], [["s1", "p", "x"], ["s2", "p", "x"]]⟩
        "A=x" "t" "=" "p" = some frows ∧
      (([("A=x", 2)] : List (String × ℕ)).map Prod.fst).Nodup ∧
      (∀ k : String, k ∈ ([("A=x", 2)] : List (String × ℕ)).map Prod.fst ↔
        ∃ m ∈ meltedOf (fun s => s)
          ⟨["Subject ID", "t", "A"], [["s1", "p", "x"], ["s2", "p", "x"]]⟩
          "t" frows, attvalOf "=" m = k) ∧
      (∀ kc ∈ ([("A=x", 2)] : List (String × ℕ)),
        kc.2 = distinctCount (meltedOf (fun s => s)
          ⟨["Subject ID", "t", "A"], [["s1", "p", "x"], ["s2", "p", "x"]]⟩
          "t" frows) "=" kc.1) ∧
      ([("A=x", 2)] : List (String × ℕ)).Pairwise (fun a b => b.2 ≤ a.2) :=
  ⟨by decide, by decide,
    c8_attribute_counts (fun s => s)
      ⟨["Subject ID", "t", "A"], [["s1", "p", "x"], ["s2", "p", "x"]]⟩
      "A=x" "t" "p" "=" (by decide) [("A=x", 2)] (by decide)⟩

/-!
### prepare_graph and detect_patterns determinism (model.py 161-236, C6)

prepare_graph builds, per period, the grouped attribute lists and the
period graph via create_edge_df_from_atts and convert_edge_df_to_graph;
detect_patterns consumes node positions and the dynamic table through
create_close_node_rows, create_period_to_patterns, create_pattern_rows and
RecordCounter.  All of these helpers are repository code not under src.
The edge builder — the pipeline's only source of randomness — is modelled
from the spec with an explicit stream of random draws; the remaining
helpers are universally quantified function parameters (the spec fixes
them as deterministic functions of their inputs: RecordCounter is built
once per run from the dynamic table, so it is absorbed into parameters
that receive the table itself).
-/

/-- One grouped row of the per-period frame: a grouping key
"subject@period" with its Full Attribute list. -/
structure GRow where
  gid : String
  atts : List String
deriving DecidableEq, Repr, Inhabited

/-- A similarity edge between two grouping keys. -/
structure Edge where
  src : String
  tgt : String
  weight : ℚ
deriving DecidableEq, Repr, Inhabited

/-- Unordered pairs of a list, each once, in order. -/
def pairsOf {α : Type} : List α → List (α × α)
  | [] => []
  | x :: xs => xs.map (fun y => (x, y)) ++ pairsOf xs

/-- Jaccard weight of two attribute lists:
|intersection| / |union| over the distinct attributes. -/
def jaccard (a b : List String) : ℚ :=
  ((a.dedup.filter (fun x => b.contains x)).length : ℚ) /
    (((a ++ b).dedup).length : ℚ)

/-- One step of the edge builder fold: for a pair of grouping keys sharing
at least one attribute, one random draw is consumed; the edge survives iff
its weight clears min_edge_weight and the draw does not fall under
missing_edge_prop. -/
def edgeStep (minw prop : ℚ) (stream : ℕ → ℚ) :
    List Edge × ℕ → GRow × GRow → List Edge × ℕ := fun st uv =>
  if (uv.1.atts.filter (fun x => uv.2.atts.contains x)).isEmpty then st
  else
    let w := jaccard uv.1.atts uv.2.atts
    let dropped : Bool := decide (stream st.2 < prop)
    (if decide (minw ≤ w) && !dropped then st.1 ++ [⟨uv.1.gid, uv.2.gid, w⟩]
      else st.1,
     st.2 + 1)

/-- Modelled from the spec: create_edge_df_from_atts
(toolkit/attribute_patterns/graph_functions.py, not under src).  Spec 4.1:
"For every unordered pair of grouping keys sharing ≥1 attribute,
weight = |intersection| / |union|; optionally each qualifying edge is
dropped with probability missing_edge_prop.  An edge survives iff its
weight ≥ min_edge_weight after thinning."  The implicit global randomness
is made explicit as a stream of draws in [0,1), consumed one per
qualifying edge (dropping when draw < missing_edge_prop, as
random() < p does); the global sorted attribute list atts is part of the
interface but the weights depend only on the pair.  Returns the surviving
edges and the index of the first unconsumed draw. -/
def create_edge_df_from_atts (_atts : List String) (grows : List GRow)
    (minw prop : ℚ) (stream : ℕ → ℚ) (k0 : ℕ) : List Edge × ℕ :=
  (pairsOf grows).foldl (edgeStep minw prop stream) ([], k0)

/-- tdf.groupby("Grouping ID")["Full Attribute"].agg(list) (lines
170-174): grouping keys ascending (pandas groupby sorts keys), each with
its Full Attribute values in row order. -/
def groupedRows (tdf : List DynRow) : List GRow :=
  (sortStrAsc ((tdf.map (fun r => r.sid ++ "@" ++ r.period)).dedup)).map
    (fun g => ⟨g, (tdf.filter
      (fun r => r.sid ++ "@" ++ r.period == g)).map
        (fun r => r.fullAttribute)⟩)

/-- One period of the prepare_graph loop (lines 169-177): filter the
period's rows, group them, build the edges, convert them to a graph
(convert_edge_df_to_graph is the function parameter gconv), and record
the period graph. -/
def periodStep {G : Type} (gconv : List Edge → G) (ddf : List DynRow)
    (atts : List String) (minw prop : ℚ) (stream : ℕ → ℚ) :
    List (String × G) × ℕ → String → List (String × G) × ℕ := fun st p =>
  let tdf := ddf.filter (fun r => r.period == p)
  let res := create_edge_df_from_atts atts (groupedRows tdf) minw prop
    stream st.2
  (st.1 ++ [(p, gconv res.1)], res.2)

/-- prepare_graph (lines 161-178): the dynamic rows with their Grouping ID
(pdf), and the period-to-graph association built over the sorted distinct
periods, threading the random stream through the periods in order. -/
def prepare_graph {G : Type} (gconv : List Edge → G) (ddf : List DynRow)
    (minw prop : ℚ) (stream : ℕ → ℚ) :
    List (DynRow × String) × List (String × G) :=
  let pdf := ddf.map (fun r => (r, r.sid ++ "@" ++ r.period))
  let atts := sortStrAsc ((ddf.map (fun r => r.fullAttribute)).dedup)
  let periods := sortStrAsc ((ddf.map (fun r => r.period)).dedup)
  (pdf, (periods.foldl (periodStep gconv ddf atts minw prop stream)
    ([], 0)).1)

/-- detect_patterns (lines 181-236) with its out-of-src helpers as
function parameters: closeFn models create_close_node_rows (returning the
close-node rows with the all_pairs and close_pairs tallies), p2pFn models
create_period_to_patterns, rowsFn models create_pattern_rows.  The node
positions enter only through their key list and closeFn; the scoring and
ranking stage is the one modelled above.  Returns the ranked table,
close_pairs and all_pairs. -/
def detect_patterns_full {π γ δ : Type}
    (closeFn : List String → List (String × π) → List String → ℕ →
      List DynRow → String → γ × ℕ × ℕ)
    (p2pFn : List String → γ → ℕ → ℕ → List DynRow → δ)
    (rowsFn : δ → List DynRow → List PRow)
    (log1p : ℕ → ℚ) (pos : List (String × π)) (ddf : List DynRow)
    (sep : String) (minc maxlen : ℕ) : List SRow × ℕ × ℕ :=
  let sorted_nodes := sortStrAsc (pos.map Prod.fst)
  let periods := sortStrAsc ((ddf.map (fun r => r.period)).dedup)
  let res := closeFn periods pos sorted_nodes minc ddf sep
  let p2p := p2pFn periods res.1 maxlen minc ddf
  let rows := rowsFn p2p ddf
  (detect_patterns_ranked log1p rows, res.2.2, res.2.1)

theorem edgeFold_zero_prop (minw : ℚ) (s1 s2 : ℕ → ℚ)
    (h1 : ∀ n, 0 ≤ s1 n) (h2 : ∀ n, 0 ≤ s2 n) :
    ∀ (ps : List (GRow × GRow)) (acc : List Edge) (k k2 : ℕ),
      (ps.foldl (edgeStep minw 0 s1) (acc, k)).1 =
        (ps.foldl (edgeStep minw 0 s2) (acc, k2)).1 := by
  intro ps
  induction ps with
  | nil => intro acc k k2; rfl
  | cons uv ps ih =>
    intro acc k k2
    simp only [List.foldl_cons]
    unfold edgeStep
    by_cases hsh : (uv.1.atts.filter (fun x => uv.2.atts.contains x)).isEmpty
    · simp only [hsh, if_true]
      exact ih acc k k2
    · simp only [hsh, if_false, Bool.false_eq_true]
      have hd1 : decide (s1 k < 0) = false :=
        decide_eq_false (not_lt.mpr (h1 k))
      have hd2 : decide (s2 k2 < 0) = false :=
        decide_eq_false (not_lt.mpr (h2 k2))
      simp only [hd1, hd2, Bool.not_false, Bool.and_true]
      exact ih _ _ _

theorem periodFold_zero_prop {G : Type} (gconv : List Edge → G)
    (ddf : List DynRow) (atts : List String) (minw : ℚ) (s1 s2 : ℕ → ℚ)
    (h1 : ∀ n, 0 ≤ s1 n) (h2 : ∀ n, 0 ≤ s2 n) :
    ∀ (periods : List String) (acc : List (String × G)) (k k2 : ℕ),
      (periods.foldl (periodStep gconv ddf atts minw 0 s1) (acc, k)).1 =
        (periods.foldl (periodStep gconv ddf atts minw 0 s2) (acc, k2)).1 := by
  intro periods
  induction periods with
  | nil => intro acc k k2; rfl
  | cons p ps ih =>
    intro acc k k2
    simp only [List.foldl_cons]
    have he : (create_edge_df_from_atts atts
        (groupedRows (ddf.filter (fun r => r.period == p))) minw 0 s1 k).1 =
        (create_edge_df_from_atts atts
        (groupedRows (ddf.filter (fun r => r.period == p))) minw 0 s2 k2).1 :=
      edgeFold_zero_prop minw s1 s2 h1 h2 _ _ _ _
    have hfst : (periodStep gconv ddf atts minw 0 s1 (acc, k) p).1 =
        (periodStep gconv ddf atts minw 0 s2 (acc, k2) p).1 := by
      show acc ++ [(p, gconv (create_edge_df_from_atts atts
          (groupedRows (ddf.filter (fun r => r.period == p))) minw 0 s1 k).1)] =
        acc ++ [(p, gconv (create_edge_df_from_atts atts
          (groupedRows (ddf.filter (fun r => r.period == p))) minw 0 s2 k2).1)]
      rw [he]
    have h3 : (ps.foldl (periodStep gconv ddf atts minw 0 s1)
        (periodStep gconv ddf atts minw 0 s1 (acc, k) p)).1 =
        (ps.foldl (periodStep gconv ddf atts minw 0 s2)
        ((periodStep gconv ddf atts minw 0 s1 (acc, k) p).1,
         (periodStep gconv ddf atts minw 0 s2 (acc, k2) p).2)).1 :=
      ih _ _ _
    have h4 : ((periodStep gconv ddf atts minw 0 s1 (acc, k) p).1,
        (periodStep gconv ddf atts minw 0 s2 (acc, k2) p).2) =
        periodStep gconv ddf atts minw 0 s2 (acc, k2) p := by
      rw [hfst]
    rw [h4] at h3
    exact h3

/-- C6: with missing_edge_prop = 0 the pipeline does not depend on the
random draws: prepare_graph produces the same pdf and the same
period-to-graph map under any two nonnegative draw streams, and
detect_patterns on the same dynamic table and node positions returns an
identical ranked table with identical close_pairs and all_pairs tallies
(it consumes no randomness at all). -/
theorem c6_pipeline_deterministic {G π γ δ : Type}
    (gconv : List Edge → G)
    (closeFn : List String → List (String × π) → List String → ℕ →
      List DynRow → String → γ × ℕ × ℕ)
    (p2pFn : List String → γ → ℕ → ℕ → List DynRow → δ)
    (rowsFn : δ → List DynRow → List PRow)
    (log1p : ℕ → ℚ) (ddf : List DynRow) (pos : List (String × π))
    (sep : String) (minw : ℚ) (minc maxlen : ℕ)
    (s1 s2 : ℕ → ℚ) (h1 : ∀ n, 0 ≤ s1 n) (h2 : ∀ n, 0 ≤ s2 n) :
    prepare_graph gconv ddf minw 0 s1 = prepare_graph gconv ddf minw 0 s2 ∧
    detect_patterns_full closeFn p2pFn rowsFn log1p pos ddf sep minc maxlen =
      detect_patterns_full closeFn p2pFn rowsFn log1p pos ddf sep minc
        maxlen := by
  constructor
  · unfold prepare_graph
    refine congrArg (fun t => (_, t)) ?_
    exact periodFold_zero_prop gconv ddf _ minw s1 s2 h1 h2 _ _ _ _
  · rfl

/-- C6 witness at a concrete instantiation: two different draw streams,
identical outputs. -/
theorem c6_pipeline_deterministic_witness :
    prepare_graph (fun es => es.length)
        [⟨"1", "P1", "A", "x", "A=x"⟩] (1/2) 0 (fun _ => 0) =
      prepare_graph (fun es => es.length)
        [⟨"1", "P1", "A", "x", "A=x"⟩] (1/2) 0 (fun _ => 1/2) ∧
    detect_patterns_full (fun _ _ _ _ _ _ => ((0 : ℕ), 0, 0))
        (fun _ _ _ _ _ => (0 : ℕ)) (fun _ _ => [])
        (fun n => (n : ℚ)) ([] : List (String × ℕ))
        [⟨"1", "P1", "A", "x", "A=x"⟩] "=" 5 100 =
      detect_patterns_full (fun _ _ _ _ _ _ => ((0 : ℕ), 0, 0))
        (fun _ _ _ _ _ => (0 : ℕ)) (fun _ _ => [])
        (fun n => (n : ℚ)) ([] : List (String × ℕ))
        [⟨"1", "P1", "A", "x", "A=x"⟩] "=" 5 100 :=
  c6_pipeline_deterministic (fun es => es.length)
    (fun _ _ _ _ _ _ => ((0 : ℕ), 0, 0)) (fun _ _ _ _ _ => (0 : ℕ))
    (fun _ _ => []) (fun n => (n : ℚ)) [⟨"1", "P1", "A", "x", "A=x"⟩]
    ([] : List (String × ℕ)) "=" (1/2) 5 100 (fun _ => 0) (fun _ => 1/2)
    (fun _ => le_refl 0) (fun _ => by norm_num)

end IntelToolkit
